import Mathlib

/-!
# Path segments and lease expiration in the network service chain

A shallow embedding of two chain elements of the networkservicemesh sdk,

* `sdk/pkg/networkservice/common/ensureexpires/server.go` (namespace `ensureexpires`),
* `sdk/pkg/networkservice/common/updatepath/client.go` (namespace `updatepath`),

followed by the properties established about them.

Conventions of the embedding.

* Go mutates the connection in place through pointers. Here every function takes
  the value before and returns the value after.
* A nil pointer is `none`, and replacing a nil pointer by a fresh zero value is
  `Option.getD`. The request pointer itself and the entries of `PathSegments` are
  taken to be non-nil.
* `time.Now()` is an explicit argument, the clock reading. A `time.Time`, and the
  timestamp built from it, is the number of nanoseconds since the Unix epoch. A
  `time.Duration` is a signed number of nanoseconds, so `now.Add(d)` is `now + d`.
* A run-time fault (nil dereference, index out of range) is the outcome `panic`.
-/

set_option autoImplicit false

namespace networkservice

/-- A clock reading or a timestamp, in nanoseconds since the Unix epoch. -/
abbrev Time := Int

/-- The type time.Duration, a signed count of nanoseconds. -/
abbrev Duration := Int

/-- The constant time.Minute. -/
def Minute : Duration := 60 * 1000000000

/-- A Go error value. -/
abbrev Error := String

/-- The message PathSegment, with the fields the two chain elements touch. -/
structure PathSegment where
  Id : String
  Name : String
  Expires : Option Time
  deriving DecidableEq, Repr

/-- The message Path. The zero value has index 0 and no segments. -/
structure Path where
  Index : Nat := 0
  PathSegments : List PathSegment := []
  deriving DecidableEq, Repr

/-- The message Connection. The zero value has an empty id and a nil path. -/
structure Connection where
  Id : String := ""
  Path : Option networkservice.Path := none
  deriving DecidableEq, Repr

/-- The message NetworkServiceRequest. -/
structure NetworkServiceRequest where
  Connection : Option networkservice.Connection := none
  deriving DecidableEq, Repr

/-- What a Go function with results (value, error) does: it returns the pair, or it
faults. -/
inductive Outcome (α : Type) where
  | ret (value : Option α) (err : Option Error)
  | panic
  deriving DecidableEq, Repr

/-- The nil-safe getter chain GetPath().GetPathSegments(). -/
def segmentsOf (conn : Option Connection) : List PathSegment :=
  match conn with
  | none => []
  | some c =>
    match c.Path with
    | none => []
    | some p => p.PathSegments

/-- Modelled from the spec: the method GetPrevPathSegment of Connection belongs to the
api package, which is not among the source files. The spec describes its result as the
segment immediately preceding the current index. The pointer it returns is represented
by the position of that segment within the path, and nil by none. -/
def Connection.GetPrevPathSegment (x : Connection) : Option Nat :=
  match x.Path with
  | none => none
  | some p =>
    if 1 ≤ p.Index ∧ p.Index - 1 < p.PathSegments.length then some (p.Index - 1) else none

/-- The segment immediately preceding the current index of a connection, when there is
one: the segment that GetPrevPathSegment points to. -/
def previousSegment (conn : Option Connection) : Option PathSegment :=
  match conn with
  | none => none
  | some c =>
    match c.Path with
    | none => none
    | some p => if 1 ≤ p.Index then p.PathSegments[p.Index - 1]? else none

end networkservice

namespace ensureexpires

open networkservice

/-- The method setExpires of updateExpiresServer (server.go, lines 28 to 48). The
receiver field ttl and the clock reading are arguments. Only the previous segment is
written; the branch for the current segment is commented out in the source. -/
def setExpires (ttl : Duration) (now : Time) (conn : Option Connection) : Option Connection :=
  match conn with
  | none => none
  | some c =>
    match c.Path with
    | none => some c
    | some p =>
      if ttl = 0 then some c
      else
        match c.GetPrevPathSegment with
        | none => some c
        | some k =>
          match p.PathSegments[k]? with
          | none => some c
          | some prev =>
            some { c with
              Path := some { p with
                PathSegments := p.PathSegments.set k { prev with Expires := some (now + ttl) } } }

/-- One call of a server chain element: the argument handed to the next element and the
pair the call returns. -/
structure ServerCall (α ρ : Type) where
  delegated : α
  returned : Option ρ × Option Error

/-- The method Request of updateExpiresServer (server.go, lines 50 to 63). -/
def Request (ttl : Duration) (now : Time)
    (next : NetworkServiceRequest → Option Connection × Option Error)
    (request : NetworkServiceRequest) : ServerCall NetworkServiceRequest Connection :=
  let conn : Connection := request.Connection.getD {}
  let conn : Connection := { conn with Path := some (conn.Path.getD {}) }
  let request : NetworkServiceRequest := { request with Connection := setExpires ttl now (some conn) }
  { delegated := request, returned := next request }

/-- The method Close of updateExpiresServer (server.go, lines 65 to 76). -/
def Close (ttl : Duration) (now : Time)
    (next : Option Connection → Option Unit × Option Error)
    (conn : Option Connection) : ServerCall (Option Connection) Unit :=
  let conn : Connection := conn.getD {}
  let conn : Connection := { conn with Path := some (conn.Path.getD {}) }
  let conn := setExpires ttl now (some conn)
  { delegated := conn, returned := next conn }

/-- An invocation of the server chain element: a Request or a Close, with the clock
reading taken during it. -/
inductive Invocation where
  | request (now : Time)
  | close (now : Time)
  deriving DecidableEq, Repr

/-- The connection after a sequence of invocations of one server chain element on it,
each acting on the connection the previous one handed on. -/
def invoke (ttl : Duration) (conn : Option Connection) : List Invocation → Option Connection
  | [] => conn
  | Invocation.request now :: rest =>
    invoke ttl (Request ttl now (fun r => (r.Connection, none)) { Connection := conn }).delegated.Connection rest
  | Invocation.close now :: rest =>
    invoke ttl (Close ttl now (fun _ => (some (), none)) conn).delegated rest

end ensureexpires

namespace updatepath

open networkservice

/-- The function ensurePreviousExpires (client.go, lines 45 to 57): when the last
segment of the path has no expiration, it receives the clock reading plus one minute. -/
def ensurePreviousExpires (now : Time) (path : Option Path) : Option Path :=
  match path with
  | none => none
  | some p =>
    let l := p.PathSegments.length
    if l = 0 then some p
    else
      match p.PathSegments[l - 1]? with
      | none => some p
      | some last =>
        if last.Expires = none then
          some { p with PathSegments := p.PathSegments.set (l - 1) { last with Expires := some (now + 1 * Minute) } }
        else some p

/-- Modelled from the spec: the function updatePath is defined in common.go of the
updatepath package, which is not among the source files. The spec gives it as the
reuse-or-append rule: an absent connection or path becomes an empty one; when the
current index refers to an existing segment whose name is the name of the handler, that
segment is reused; otherwise a new segment with a freshly generated identifier and the
name of the handler is appended and the index advances to it; an index that refers to
no segment of a non-empty path is a structural error. The generated identifier is the
argument freshId. The results are the connection, the recorded index and the error. -/
def updatePath (freshId : String) (conn : Option Connection) (segmentName : String) :
    Option Connection × Nat × Option Error :=
  let c : Connection := conn.getD {}
  let p : Path := c.Path.getD {}
  let appended : Path :=
    { Index := p.PathSegments.length
      PathSegments := p.PathSegments ++ [{ Id := freshId, Name := segmentName, Expires := none }] }
  match p.PathSegments[p.Index]? with
  | some curr =>
    if curr.Name = segmentName then (some { c with Path := some p }, p.Index, none)
    else (some { c with Path := some appended }, appended.Index, none)
  | none =>
    if p.PathSegments.length = 0 then (some { c with Path := some appended }, appended.Index, none)
    else (none, 0, some "path index out of range")

/-- One call of Request of the client: the request object after the writes the handler
made through it, the request handed to the next element (none when the next element is
not invoked), and what the call returns. Writes made through the returned connection
are part of the returned value. -/
structure RequestCall where
  request : NetworkServiceRequest
  delegated : Option NetworkServiceRequest
  returned : Outcome Connection
  deriving DecidableEq, Repr

/-- The method Request of updatePathClient (client.go, lines 59 to 90). The function
updatePath, the next element of the chain and the two clock readings (the one before
and the one after delegating) are arguments. -/
def Request (name : String)
    (updatePath : Option Connection → String → Option Connection × Nat × Option Error)
    (next : NetworkServiceRequest → Option Connection × Option Error)
    (nowBefore nowAfter : Time) (request : NetworkServiceRequest) : RequestCall :=
  let c0 : Connection := request.Connection.getD {}
  let c1 : Connection := { c0 with Path := ensurePreviousExpires nowBefore c0.Path }
  match updatePath (some c1) name with
  | (c2, _, some err) =>
    { request := { request with Connection := c2 }, delegated := none, returned := Outcome.ret none (some err) }
  | (c2, index, none) =>
    let request : NetworkServiceRequest := { request with Connection := c2 }
    match next request with
    | (_, some err) =>
      { request := request, delegated := some request, returned := Outcome.ret none (some err) }
    | (none, none) =>
      { request := request, delegated := some request, returned := Outcome.panic }
    | (some conn, none) =>
      match ensurePreviousExpires nowAfter conn.Path with
      | none => { request := request, delegated := some request, returned := Outcome.panic }
      | some path =>
        match path.PathSegments[index]? with
        | none => { request := request, delegated := some request, returned := Outcome.panic }
        | some seg =>
          { request := request, delegated := some request,
            returned := Outcome.ret (some { conn with Id := seg.Id, Path := some { path with Index := index } }) none }

/-- One call of Close of the client: the connection handed to the next element (none
when the next element is not invoked) and what the call returns. -/
structure CloseCall where
  delegated : Option Connection
  returned : Outcome Unit
  deriving DecidableEq, Repr

/-- The method Close of updatePathClient (client.go, lines 92 to 110). -/
def Close (name : String)
    (updatePath : Option Connection → String → Option Connection × Nat × Option Error)
    (next : Connection → Option Unit × Option Error)
    (nowBefore nowAfter : Time) (conn : Option Connection) : CloseCall :=
  match conn with
  | none => { delegated := none, returned := Outcome.panic }
  | some c0 =>
    let c1 : Connection := { c0 with Path := ensurePreviousExpires nowBefore c0.Path }
    match updatePath (some c1) name with
    | (_, _, some err) => { delegated := none, returned := Outcome.ret none (some err) }
    | (none, _, none) => { delegated := none, returned := Outcome.panic }
    | (some c2, _, none) =>
      let c3 : Connection := { c2 with Path := ensurePreviousExpires nowAfter c2.Path }
      { delegated := some c3, returned := Outcome.ret (next c3).1 (next c3).2 }

/-- The connection that Request and Close pass to updatePath: the connection received,
an absent one replaced by an empty one, after the first call of ensurePreviousExpires
(client.go, lines 61 to 68 and 95 to 97). -/
def beforeUpdate (now : Time) (conn : Option Connection) : Connection :=
  { (conn.getD {}) with Path := ensurePreviousExpires now (conn.getD {}).Path }

end updatepath

/-! ## Concrete paths and connections used to instantiate the results -/

namespace fixture

open networkservice

/-- The segment of the calling hop, without a lease. -/
def caller : PathSegment := { Id := "id-caller", Name := "caller", Expires := none }

/-- The segment of the hop named A, with a lease. -/
def hopA : PathSegment := { Id := "id-A", Name := "A", Expires := some 5 }

/-- A path of two hops whose current segment is the one of A. -/
def twoHopPath : Path := { Index := 1, PathSegments := [caller, hopA] }

/-- A connection on the two hop path. -/
def twoHopConn : Connection := { Id := "conn", Path := some twoHopPath }

/-- A path of one hop without a lease, with the index on it. -/
def callerPath : Path := { Index := 0, PathSegments := [caller] }

/-- A connection on the one hop path. -/
def callerConn : Connection := { Id := "conn", Path := some callerPath }

/-- A path of one hop with a lease, with the index on it. -/
def leasedPath : Path := { Index := 0, PathSegments := [hopA] }

/-- The segment of the calling hop after a server stamp at the reading 100 with the
ttl 30. -/
def callerRenewed : PathSegment := { caller with Expires := some (100 + 30) }

/-- The segment of the calling hop after the fallback at the reading 100. -/
def callerFallback : PathSegment := { caller with Expires := some (100 + 60 * 1000000000) }

/-- The one hop path after the fallback at the reading 100. -/
def callerFallbackPath : Path := { Index := 0, PathSegments := [callerFallback] }

/-- A connection whose index refers to no segment of its path. -/
def strayConn : Connection := { Id := "conn", Path := some { Index := 3, PathSegments := [hopA] } }

/-- The segment of a hop further down the chain, without a lease. -/
def hopB : PathSegment := { Id := "id-B", Name := "B", Expires := none }

/-- A path as a next element may return it: one more segment, and the index moved. -/
def downstreamPath : Path := { Index := 2, PathSegments := [caller, hopA, hopB] }

/-- A connection as a next element may return it. -/
def downstreamConn : Connection := { Id := "id-B", Path := some downstreamPath }

end fixture

/-! ## Auxiliary facts about writing the expiration of one segment -/

namespace networkservice

/-- Writing the expiration of the segment at position k leaves every identifier, every
name and every other expiration as it was. -/
theorem set_expires_frame (l : List PathSegment) (k : Nat) (old : PathSegment)
    (e : Option Time) (hk : l[k]? = some old) (i : Nat) (seg : PathSegment)
    (hi : l[i]? = some seg) :
    ∃ seg', (l.set k { old with Expires := e })[i]? = some seg' ∧
      seg'.Id = seg.Id ∧ seg'.Name = seg.Name ∧
      (i = k → seg'.Expires = e) ∧ (i ≠ k → seg'.Expires = seg.Expires) := by
  by_cases hik : i = k
  · subst hik
    have hlt : i < l.length := by
      rcases List.getElem?_eq_some.mp hi with ⟨h, _⟩
      exact h
    have hso : seg = old := by
      rw [hi] at hk
      exact Option.some.inj hk
    subst hso
    refine ⟨{ seg with Expires := e }, ?_, rfl, rfl, fun _ => rfl, fun h => absurd rfl h⟩
    simp [List.getElem?_set, hlt]
  · refine ⟨seg, ?_, rfl, rfl, fun h => absurd h hik, fun _ => rfl⟩
    rw [List.getElem?_set_ne (Ne.symm hik)]
    exact hi

/-- The segment written at position k carries the new expiration. -/
theorem set_expires_at (l : List PathSegment) (k : Nat) (old : PathSegment)
    (e : Option Time) (hk : l[k]? = some old) :
    (l.set k { old with Expires := e })[k]? = some { old with Expires := e } := by
  have hlt : k < l.length := by
    rcases List.getElem?_eq_some.mp hk with ⟨h, _⟩
    exact h
  simp [List.getElem?_set, hlt]

end networkservice

namespace ensureexpires

open networkservice

/-- With stamping enabled and a previous segment present, setExpires writes exactly
that segment. -/
theorem setExpires_eq_set (ttl : Duration) (now : Time) (conn : Connection) (p : Path)
    (prev : PathSegment) (httl : ttl ≠ 0) (hpath : conn.Path = some p)
    (hidx : 1 ≤ p.Index) (hprev : p.PathSegments[p.Index - 1]? = some prev) :
    setExpires ttl now (some conn) =
      some { conn with
        Path := some { p with
          PathSegments := p.PathSegments.set (p.Index - 1) { prev with Expires := some (now + ttl) } } } := by
  have hlt : p.Index - 1 < p.PathSegments.length := by
    rcases List.getElem?_eq_some.mp hprev with ⟨h, _⟩
    exact h
  have hg : conn.GetPrevPathSegment = some (p.Index - 1) := by
    simp [Connection.GetPrevPathSegment, hpath, hidx, hlt]
  simp only [setExpires, hpath, httl, if_false, hg, hprev]

/-- Without a previous segment setExpires changes nothing. -/
theorem setExpires_eq_self (ttl : Duration) (now : Time) (conn : Connection)
    (hnone : conn.GetPrevPathSegment = none) :
    setExpires ttl now (some conn) = some conn := by
  unfold setExpires
  cases hpath : conn.Path with
  | none => simp [hpath]
  | some p =>
    by_cases httl : ttl = 0
    · simp [hpath, httl]
    · simp [hpath, httl, hnone]

/-- With a zero ttl setExpires changes nothing. -/
theorem setExpires_zero (now : Time) (conn : Option Connection) :
    setExpires 0 now conn = conn := by
  unfold setExpires
  cases conn with
  | none => rfl
  | some c =>
    cases hpath : c.Path with
    | none => simp [hpath]
    | some p => simp [hpath]

end ensureexpires

namespace updatepath

open networkservice

/-- When the last segment has no expiration, ensurePreviousExpires writes exactly that
segment. -/
theorem ensurePreviousExpires_eq_set (now : Time) (p : Path) (last : PathSegment)
    (hlast : p.PathSegments[p.PathSegments.length - 1]? = some last)
    (habs : last.Expires = none) :
    ensurePreviousExpires now (some p) =
      some { p with
        PathSegments :=
          p.PathSegments.set (p.PathSegments.length - 1) { last with Expires := some (now + Minute) } } := by
  have hlt : p.PathSegments.length - 1 < p.PathSegments.length := by
    rcases List.getElem?_eq_some.mp hlast with ⟨h, _⟩
    exact h
  have hne : p.PathSegments.length ≠ 0 := by omega
  simp only [ensurePreviousExpires, hne, if_false, hlast, habs, if_true, one_mul]

/-- When the last segment has an expiration, ensurePreviousExpires changes nothing. -/
theorem ensurePreviousExpires_eq_self (now : Time) (p : Path) (last : PathSegment)
    (hlast : p.PathSegments[p.PathSegments.length - 1]? = some last)
    (hset : last.Expires ≠ none) :
    ensurePreviousExpires now (some p) = some p := by
  have hlt : p.PathSegments.length - 1 < p.PathSegments.length := by
    rcases List.getElem?_eq_some.mp hlast with ⟨h, _⟩
    exact h
  have hne : p.PathSegments.length ≠ 0 := by omega
  simp only [ensurePreviousExpires, hne, if_false, hlast, hset]

/-- On a path without segments ensurePreviousExpires changes nothing. -/
theorem ensurePreviousExpires_nil (now : Time) (p : Path) (hnil : p.PathSegments = []) :
    ensurePreviousExpires now (some p) = some p := by
  simp [ensurePreviousExpires, hnil]

/-- A second application of ensurePreviousExpires, at any clock reading, changes
nothing. -/
theorem ensurePreviousExpires_twice (now1 now2 : Time) (path : Option Path) :
    ensurePreviousExpires now2 (ensurePreviousExpires now1 path) =
      ensurePreviousExpires now1 path := by
  cases path with
  | none => rfl
  | some p =>
    by_cases hnil : p.PathSegments = []
    · rw [ensurePreviousExpires_nil now1 p hnil, ensurePreviousExpires_nil now2 p hnil]
    · have hpos : 0 < p.PathSegments.length := List.length_pos.mpr hnil
      have hlt : p.PathSegments.length - 1 < p.PathSegments.length := by omega
      have hlast : p.PathSegments[p.PathSegments.length - 1]? =
          some (p.PathSegments[p.PathSegments.length - 1]) := List.getElem?_eq_getElem hlt
      by_cases habs : (p.PathSegments[p.PathSegments.length - 1]).Expires = none
      · rw [ensurePreviousExpires_eq_set now1 p _ hlast habs]
        apply ensurePreviousExpires_eq_self now2 _
          { p.PathSegments[p.PathSegments.length - 1] with Expires := some (now1 + Minute) }
        · simp only [List.length_set]
          exact set_expires_at _ _ _ _ hlast
        · simp
      · rw [ensurePreviousExpires_eq_self now1 p _ hlast habs]
        exact ensurePreviousExpires_eq_self now2 p _ hlast habs

end updatepath

/-! ## Auxiliary facts about the server chain element -/

namespace ensureexpires

open networkservice

/-- With a zero ttl, or on a connection without segments, setExpires keeps the sequence
of segments. -/
theorem segmentsOf_setExpires (ttl : Duration) (now : Time) (conn : Connection)
    (h : ttl = 0 ∨ segmentsOf (some conn) = []) :
    segmentsOf (setExpires ttl now (some conn)) = segmentsOf (some conn) := by
  rcases h with h | h
  · subst h
    rw [setExpires_zero]
  · rcases conn with ⟨id, _ | ⟨idx, segs⟩⟩
    · rw [setExpires_eq_self _ _ _ (by simp [Connection.GetPrevPathSegment])]
    · have hs : segs = [] := by simpa [segmentsOf] using h
      subst hs
      rw [setExpires_eq_self _ _ _ (by simp [Connection.GetPrevPathSegment])]

/-- The connection that Request hands on has the segments of the one it received, when
the ttl is zero or there are no segments. -/
theorem segmentsOf_Request_delegated (ttl : Duration) (now : Time)
    (next : NetworkServiceRequest → Option Connection × Option Error)
    (request : NetworkServiceRequest) (h : ttl = 0 ∨ segmentsOf request.Connection = []) :
    segmentsOf (Request ttl now next request).delegated.Connection =
      segmentsOf request.Connection := by
  rcases request with ⟨_ | ⟨id, _ | ⟨idx, segs⟩⟩⟩
  · simp only [Request]
    rw [segmentsOf_setExpires _ _ _ (Or.inr (by simp [segmentsOf]))]
    simp [segmentsOf]
  · simp only [Request]
    rw [segmentsOf_setExpires _ _ _ (Or.inr (by simp [segmentsOf]))]
    simp [segmentsOf]
  · simp only [Request]
    exact segmentsOf_setExpires _ _ _ h

/-- The connection that Close hands on has the segments of the one it received, when
the ttl is zero or there are no segments. -/
theorem segmentsOf_Close_delegated (ttl : Duration) (now : Time)
    (next : Option Connection → Option Unit × Option Error)
    (conn : Option Connection) (h : ttl = 0 ∨ segmentsOf conn = []) :
    segmentsOf (Close ttl now next conn).delegated = segmentsOf conn := by
  rcases conn with _ | ⟨id, _ | ⟨idx, segs⟩⟩
  · simp only [Close]
    rw [segmentsOf_setExpires _ _ _ (Or.inr (by simp [segmentsOf]))]
    simp [segmentsOf]
  · simp only [Close]
    rw [segmentsOf_setExpires _ _ _ (Or.inr (by simp [segmentsOf]))]
    simp [segmentsOf]
  · simp only [Close]
    exact segmentsOf_setExpires _ _ _ h

/-- Any sequence of invocations keeps the segments, when the ttl is zero or there are
no segments. -/
theorem segmentsOf_invoke (ttl : Duration) (calls : List Invocation)
    (conn : Option Connection) (h : ttl = 0 ∨ segmentsOf conn = []) :
    segmentsOf (invoke ttl conn calls) = segmentsOf conn := by
  induction calls generalizing conn with
  | nil => rfl
  | cons call rest ih =>
    cases call with
    | request now =>
      have hstep := segmentsOf_Request_delegated ttl now (fun r => (r.Connection, none))
        { Connection := conn } h
      have hnext : ttl = 0 ∨ segmentsOf (Request ttl now (fun r => (r.Connection, none))
          { Connection := conn }).delegated.Connection = [] := by
        rcases h with h | h
        · exact Or.inl h
        · exact Or.inr (hstep.trans h)
      simp only [invoke]
      rw [ih _ hnext]
      exact hstep
    | close now =>
      have hstep := segmentsOf_Close_delegated ttl now (fun _ => (some (), none)) conn h
      have hnext : ttl = 0 ∨ segmentsOf (Close ttl now (fun _ => (some (), none))
          conn).delegated = [] := by
        rcases h with h | h
        · exact Or.inl h
        · exact Or.inr (hstep.trans h)
      simp only [invoke]
      rw [ih _ hnext]
      exact hstep

/-- With a zero ttl, or on a connection without segments, what Request and Close hand
on is the connection received, an absent connection or path replaced by an empty one. -/
theorem setExpires_normalised (ttl : Duration) (now : Time) (conn : Option Connection)
    (h : ttl = 0 ∨ segmentsOf conn = []) :
    setExpires ttl now
        (some { (conn.getD {}) with Path := some ((conn.getD {}).Path.getD {}) }) =
      some { (conn.getD {}) with Path := some ((conn.getD {}).Path.getD {}) } := by
  rcases h with h | h
  · subst h
    exact setExpires_zero now _
  · apply setExpires_eq_self
    rcases conn with _ | ⟨id, _ | ⟨idx, segs⟩⟩
    · simp [Connection.GetPrevPathSegment]
    · simp [Connection.GetPrevPathSegment]
    · have hs : segs = [] := by simpa [segmentsOf] using h
      subst hs
      simp [Connection.GetPrevPathSegment]

/-- A connection whose path is absent has no segments. -/
theorem segmentsOf_of_path_absent (conn : Option Connection)
    (h : ∀ c, conn = some c → c.Path = none) : segmentsOf conn = [] := by
  cases conn with
  | none => rfl
  | some c => simp [segmentsOf, h c rfl]

end ensureexpires

/-! ## Auxiliary facts about the client chain element -/

namespace updatepath

open networkservice

/-- Whatever branch it takes, ensurePreviousExpires keeps the index, the number of
segments and every identifier and name. -/
theorem ensurePreviousExpires_shape (now : Time) (p : Path) :
    ∃ segs : List PathSegment,
      ensurePreviousExpires now (some p) = some { p with PathSegments := segs } ∧
      segs.length = p.PathSegments.length ∧
      ∀ (i : Nat) (seg : PathSegment), p.PathSegments[i]? = some seg →
        ∃ seg', segs[i]? = some seg' ∧ seg'.Id = seg.Id ∧ seg'.Name = seg.Name := by
  by_cases hnil : p.PathSegments = []
  · exact ⟨p.PathSegments, ensurePreviousExpires_nil now p hnil, rfl,
      fun i seg hi => ⟨seg, hi, rfl, rfl⟩⟩
  · have hpos : 0 < p.PathSegments.length := List.length_pos.mpr hnil
    have hlt : p.PathSegments.length - 1 < p.PathSegments.length := by omega
    have hlast : p.PathSegments[p.PathSegments.length - 1]? =
        some (p.PathSegments[p.PathSegments.length - 1]) := List.getElem?_eq_getElem hlt
    by_cases habs : (p.PathSegments[p.PathSegments.length - 1]).Expires = none
    · refine ⟨_, ensurePreviousExpires_eq_set now p _ hlast habs, by simp, ?_⟩
      intro i seg hi
      obtain ⟨seg', h1, h2, h3, _, _⟩ :=
        set_expires_frame _ _ _ (some (now + Minute)) hlast i seg hi
      exact ⟨seg', h1, h2, h3⟩
    · exact ⟨p.PathSegments, ensurePreviousExpires_eq_self now p _ hlast habs, rfl,
        fun i seg hi => ⟨seg, hi, rfl, rfl⟩⟩

/-- Request when updatePath fails. -/
theorem Request_of_updatePath_error (name : String)
    (updatePath : Option Connection → String → Option Connection × Nat × Option Error)
    (next : NetworkServiceRequest → Option Connection × Option Error)
    (nowBefore nowAfter : Time) (request : NetworkServiceRequest)
    (c2 : Option Connection) (index : Nat) (err : Error)
    (hupd : updatePath (some (beforeUpdate nowBefore request.Connection)) name =
      (c2, index, some err)) :
    Request name updatePath next nowBefore nowAfter request =
      { request := { Connection := c2 }, delegated := none,
        returned := Outcome.ret none (some err) } := by
  simp only [beforeUpdate] at hupd
  simp only [Request, hupd]

/-- Request when updatePath succeeds and the next element fails. -/
theorem Request_of_next_error (name : String)
    (updatePath : Option Connection → String → Option Connection × Nat × Option Error)
    (next : NetworkServiceRequest → Option Connection × Option Error)
    (nowBefore nowAfter : Time) (request : NetworkServiceRequest)
    (c2 : Option Connection) (index : Nat) (v : Option Connection) (err : Error)
    (hupd : updatePath (some (beforeUpdate nowBefore request.Connection)) name =
      (c2, index, none))
    (hnext : next { Connection := c2 } = (v, some err)) :
    Request name updatePath next nowBefore nowAfter request =
      { request := { Connection := c2 }, delegated := some { Connection := c2 },
        returned := Outcome.ret none (some err) } := by
  simp only [beforeUpdate] at hupd
  simp only [Request, hupd, hnext]

/-- Request when updatePath succeeds and the next element returns neither a connection
nor an error. -/
theorem Request_of_next_nil (name : String)
    (updatePath : Option Connection → String → Option Connection × Nat × Option Error)
    (next : NetworkServiceRequest → Option Connection × Option Error)
    (nowBefore nowAfter : Time) (request : NetworkServiceRequest)
    (c2 : Option Connection) (index : Nat)
    (hupd : updatePath (some (beforeUpdate nowBefore request.Connection)) name =
      (c2, index, none))
    (hnext : next { Connection := c2 } = (none, none)) :
    (Request name updatePath next nowBefore nowAfter request).returned = Outcome.panic := by
  simp only [beforeUpdate] at hupd
  simp only [Request, hupd, hnext]

/-- Request when updatePath succeeds and the next element returns a connection: the
call faults or returns a connection and no error. -/
theorem Request_of_next_ok (name : String)
    (updatePath : Option Connection → String → Option Connection × Nat × Option Error)
    (next : NetworkServiceRequest → Option Connection × Option Error)
    (nowBefore nowAfter : Time) (request : NetworkServiceRequest)
    (c2 : Option Connection) (index : Nat) (conn : Connection)
    (hupd : updatePath (some (beforeUpdate nowBefore request.Connection)) name =
      (c2, index, none))
    (hnext : next { Connection := c2 } = (some conn, none)) :
    (Request name updatePath next nowBefore nowAfter request).delegated =
      some { Connection := c2 } ∧
    (Request name updatePath next nowBefore nowAfter request).returned =
      match ensurePreviousExpires nowAfter conn.Path with
      | none => Outcome.panic
      | some path =>
        match path.PathSegments[index]? with
        | none => Outcome.panic
        | some seg =>
          Outcome.ret (some { conn with Id := seg.Id, Path := some { path with Index := index } })
            none := by
  simp only [beforeUpdate] at hupd
  simp only [Request, hupd, hnext]
  cases h1 : ensurePreviousExpires nowAfter conn.Path with
  | none => exact ⟨rfl, rfl⟩
  | some path =>
    cases h2 : path.PathSegments[index]? with
    | none => simp [h2]
    | some seg => simp [h2]

end updatepath

namespace updatepath

open networkservice

/-- Close when updatePath fails. -/
theorem Close_of_updatePath_error (name : String)
    (updatePath : Option Connection → String → Option Connection × Nat × Option Error)
    (next : Connection → Option Unit × Option Error)
    (nowBefore nowAfter : Time) (conn : Connection)
    (c2 : Option Connection) (index : Nat) (err : Error)
    (hupd : updatePath (some (beforeUpdate nowBefore (some conn))) name =
      (c2, index, some err)) :
    Close name updatePath next nowBefore nowAfter (some conn) =
      { delegated := none, returned := Outcome.ret none (some err) } := by
  simp only [beforeUpdate, Option.getD] at hupd
  simp only [Close, hupd]

/-- Close when updatePath succeeds. -/
theorem Close_of_updatePath_ok (name : String)
    (updatePath : Option Connection → String → Option Connection × Nat × Option Error)
    (next : Connection → Option Unit × Option Error)
    (nowBefore nowAfter : Time) (conn : Connection)
    (c2 : Connection) (index : Nat)
    (hupd : updatePath (some (beforeUpdate nowBefore (some conn))) name =
      (some c2, index, none)) :
    Close name updatePath next nowBefore nowAfter (some conn) =
      { delegated := some { c2 with Path := ensurePreviousExpires nowAfter c2.Path },
        returned :=
          Outcome.ret (next { c2 with Path := ensurePreviousExpires nowAfter c2.Path }).1
            (next { c2 with Path := ensurePreviousExpires nowAfter c2.Path }).2 } := by
  simp only [beforeUpdate, Option.getD] at hupd
  simp only [Close, hupd]

end updatepath

/-! ## Rule A: the server side stamp -/

namespace ensureexpires

open networkservice

/-- Claim C1. For a ttl other than zero, any clock reading and any connection whose
path is present: when a segment immediately precedes the current index, setExpires
gives that segment the expiration now + ttl whatever it held before, and the number and
order of the segments, every identifier and name, every other expiration, the index of
the path and the identifier of the connection stay as they were; when no segment
precedes the current index, the connection is unchanged. -/
theorem setExpires_stamps_previous (ttl : Duration) (now : Time) (conn : Connection)
    (p : Path) (httl : ttl ≠ 0) (hpath : conn.Path = some p) :
    (1 ≤ p.Index → p.Index - 1 < p.PathSegments.length →
      ∃ segs : List PathSegment,
        setExpires ttl now (some conn) =
          some { conn with Path := some { p with PathSegments := segs } } ∧
        segs.length = p.PathSegments.length ∧
        (∃ prev', segs[p.Index - 1]? = some prev' ∧ prev'.Expires = some (now + ttl)) ∧
        ∀ i seg, p.PathSegments[i]? = some seg →
          ∃ seg', segs[i]? = some seg' ∧ seg'.Id = seg.Id ∧ seg'.Name = seg.Name ∧
            (i ≠ p.Index - 1 → seg'.Expires = seg.Expires)) ∧
    (¬ (1 ≤ p.Index ∧ p.Index - 1 < p.PathSegments.length) →
      setExpires ttl now (some conn) = some conn) := by
  constructor
  · intro hidx hlt
    have hprev : p.PathSegments[p.Index - 1]? = some (p.PathSegments[p.Index - 1]) :=
      List.getElem?_eq_getElem hlt
    refine ⟨_, setExpires_eq_set ttl now conn p _ httl hpath hidx hprev, ?_, ?_, ?_⟩
    · simp
    · exact ⟨_, set_expires_at _ _ _ _ hprev, rfl⟩
    · intro i seg hi
      obtain ⟨seg', h1, h2, h3, _, h5⟩ := set_expires_frame _ _ _ (some (now + ttl)) hprev i seg hi
      exact ⟨seg', h1, h2, h3, h5⟩
  · intro hno
    apply setExpires_eq_self
    simp only [Connection.GetPrevPathSegment, hpath]
    rw [if_neg hno]

/-- Claim C1 at a concrete input: on the two hop path with the index on the second
segment, the first segment receives the stamp; on the one hop path nothing changes. -/
theorem setExpires_stamps_previous_witness :
    ((30 : Duration) ≠ 0 ∧ fixture.twoHopConn.Path = some fixture.twoHopPath ∧
      1 ≤ fixture.twoHopPath.Index ∧
      fixture.twoHopPath.Index - 1 < fixture.twoHopPath.PathSegments.length ∧
      ∃ segs prev',
        setExpires 30 100 (some fixture.twoHopConn) =
          some { fixture.twoHopConn with
            Path := some { fixture.twoHopPath with PathSegments := segs } } ∧
        segs[fixture.twoHopPath.Index - 1]? = some prev' ∧
        prev'.Expires = some (100 + 30)) ∧
    (fixture.callerConn.Path = some fixture.callerPath ∧
      setExpires 30 100 (some fixture.callerConn) = some fixture.callerConn) := by
  obtain ⟨segs, h1, _, ⟨prev', h3, h4⟩, _⟩ :=
    (setExpires_stamps_previous 30 100 fixture.twoHopConn fixture.twoHopPath
      (by decide) rfl).1 (by decide) (by decide)
  exact ⟨⟨by decide, rfl, by decide, by decide, segs, prev', h1, h3, h4⟩, rfl,
    (setExpires_stamps_previous 30 100 fixture.callerConn fixture.callerPath
      (by decide) rfl).2 (by decide)⟩

end ensureexpires

/-! ## Rule B: the client side fallback -/

namespace updatepath

open networkservice

/-- Claim C2. For every path with at least one segment whose last segment has no
expiration, and every clock reading, ensurePreviousExpires gives the last segment the
expiration now + 1 minute, and the number and order of the segments, every identifier
and name, the expiration of every segment other than the last and the index of the path
stay as they were. -/
theorem ensurePreviousExpires_stamps_last (now : Time) (p : Path) (last : PathSegment)
    (_hne : p.PathSegments ≠ [])
    (hlast : p.PathSegments[p.PathSegments.length - 1]? = some last)
    (habs : last.Expires = none) :
    ∃ segs : List PathSegment,
      ensurePreviousExpires now (some p) = some { p with PathSegments := segs } ∧
      segs.length = p.PathSegments.length ∧
      (∃ last', segs[p.PathSegments.length - 1]? = some last' ∧
        last'.Expires = some (now + 60 * 1000000000)) ∧
      ∀ i seg, p.PathSegments[i]? = some seg →
        ∃ seg', segs[i]? = some seg' ∧ seg'.Id = seg.Id ∧ seg'.Name = seg.Name ∧
          (i ≠ p.PathSegments.length - 1 → seg'.Expires = seg.Expires) := by
  refine ⟨_, ensurePreviousExpires_eq_set now p last hlast habs, ?_, ?_, ?_⟩
  · simp
  · exact ⟨_, set_expires_at _ _ _ _ hlast, rfl⟩
  · intro i seg hi
    obtain ⟨seg', h1, h2, h3, _, h5⟩ :=
      set_expires_frame _ _ _ (some (now + Minute)) hlast i seg hi
    exact ⟨seg', h1, h2, h3, h5⟩

/-- Claim C2 at a concrete input: the one hop path without a lease. -/
theorem ensurePreviousExpires_stamps_last_witness :
    fixture.callerPath.PathSegments ≠ [] ∧
    fixture.callerPath.PathSegments[fixture.callerPath.PathSegments.length - 1]? =
      some fixture.caller ∧
    fixture.caller.Expires = none ∧
    ∃ segs : List PathSegment,
      ensurePreviousExpires 100 (some fixture.callerPath) =
        some { fixture.callerPath with PathSegments := segs } ∧
      segs.length = fixture.callerPath.PathSegments.length ∧
      (∃ last', segs[fixture.callerPath.PathSegments.length - 1]? = some last' ∧
        last'.Expires = some (100 + 60 * 1000000000)) ∧
      ∀ i seg, fixture.callerPath.PathSegments[i]? = some seg →
        ∃ seg', segs[i]? = some seg' ∧ seg'.Id = seg.Id ∧ seg'.Name = seg.Name ∧
          (i ≠ fixture.callerPath.PathSegments.length - 1 → seg'.Expires = seg.Expires) :=
  ⟨by decide, rfl, rfl,
    ensurePreviousExpires_stamps_last 100 fixture.callerPath fixture.caller (by decide) rfl rfl⟩

/-- Claim C3. For every path whose last segment already has an expiration, and every
clock reading, ensurePreviousExpires leaves the whole path, that value included,
unchanged; and for every path, applying ensurePreviousExpires twice at any two clock
readings gives the same path as applying it once at the first reading. -/
theorem ensurePreviousExpires_never_overwrites (now now1 now2 : Time) (p : Path)
    (last : PathSegment) (path : Option Path)
    (hlast : p.PathSegments[p.PathSegments.length - 1]? = some last)
    (hset : last.Expires ≠ none) :
    ensurePreviousExpires now (some p) = some p ∧
    ensurePreviousExpires now2 (ensurePreviousExpires now1 path) =
      ensurePreviousExpires now1 path :=
  ⟨ensurePreviousExpires_eq_self now p last hlast hset,
    ensurePreviousExpires_twice now1 now2 path⟩

/-- Claim C3 at a concrete input: the one hop path with a lease keeps it, and the one
hop path without a lease is stamped once, at the first reading. -/
theorem ensurePreviousExpires_never_overwrites_witness :
    fixture.leasedPath.PathSegments[fixture.leasedPath.PathSegments.length - 1]? =
      some fixture.hopA ∧
    fixture.hopA.Expires ≠ none ∧
    ensurePreviousExpires 100 (some fixture.leasedPath) = some fixture.leasedPath ∧
    ensurePreviousExpires 300 (ensurePreviousExpires 200 (some fixture.callerPath)) =
      ensurePreviousExpires 200 (some fixture.callerPath) :=
  ⟨rfl, by decide,
    ensurePreviousExpires_never_overwrites 100 200 300 fixture.leasedPath fixture.hopA
      (some fixture.callerPath) rfl (by decide)⟩

end updatepath

/-! ## Disabled stamping -/

namespace ensureexpires

open networkservice

/-- Claim C6. With a zero ttl, and with any ttl when the path of the connection is
absent, Request and Close of the server chain element hand to the next element a
connection that is the input, an absent connection or path replaced by an empty one, so
that its sequence of segments (identifiers, names, expirations) is the one of the
input, an absent connection or path counting as no segments; the same holds after
any sequence of Request and Close invocations; and what each call returns is exactly
what the next element returned, so the handler raises no error of its own. -/
theorem disabled_stamping_keeps_segments (ttl : Duration) (now : Time)
    (nextRequest : NetworkServiceRequest → Option Connection × Option Error)
    (nextClose : Option Connection → Option Unit × Option Error)
    (request : NetworkServiceRequest) (calls : List Invocation)
    (h : ttl = 0 ∨ ∀ c, request.Connection = some c → c.Path = none) :
    (Request ttl now nextRequest request).delegated.Connection =
      some { (request.Connection.getD {}) with
        Path := some ((request.Connection.getD {}).Path.getD {}) } ∧
    (Close ttl now nextClose request.Connection).delegated =
      some { (request.Connection.getD {}) with
        Path := some ((request.Connection.getD {}).Path.getD {}) } ∧
    segmentsOf (Request ttl now nextRequest request).delegated.Connection =
      segmentsOf request.Connection ∧
    (Request ttl now nextRequest request).returned =
      nextRequest (Request ttl now nextRequest request).delegated ∧
    segmentsOf (Close ttl now nextClose request.Connection).delegated =
      segmentsOf request.Connection ∧
    (Close ttl now nextClose request.Connection).returned =
      nextClose (Close ttl now nextClose request.Connection).delegated ∧
    segmentsOf (invoke ttl request.Connection calls) = segmentsOf request.Connection := by
  have h' : ttl = 0 ∨ segmentsOf request.Connection = [] := by
    rcases h with h | h
    · exact Or.inl h
    · exact Or.inr (segmentsOf_of_path_absent _ h)
  exact ⟨setExpires_normalised ttl now request.Connection h',
    setExpires_normalised ttl now request.Connection h',
    segmentsOf_Request_delegated ttl now nextRequest request h', rfl,
    segmentsOf_Close_delegated ttl now nextClose request.Connection h', rfl,
    segmentsOf_invoke ttl calls request.Connection h'⟩

/-- Claim C6 at a concrete input: a zero ttl on the two hop connection, with a next
element that fails, handed on through a Request, a Close and another Request. -/
theorem disabled_stamping_keeps_segments_witness :
    ((0 : Duration) = 0 ∨
      ∀ c, (NetworkServiceRequest.mk (some fixture.twoHopConn)).Connection = some c →
        c.Path = none) ∧
    segmentsOf (Request 0 100 (fun _ => (none, some "refused"))
      { Connection := some fixture.twoHopConn }).delegated.Connection =
        [fixture.caller, fixture.hopA] ∧
    (Request 0 100 (fun _ => (none, some "refused"))
      { Connection := some fixture.twoHopConn }).returned = (none, some "refused") ∧
    segmentsOf (invoke 0 (some fixture.twoHopConn)
      [Invocation.request 100, Invocation.close 200, Invocation.request 300]) =
        [fixture.caller, fixture.hopA] := by
  have h := disabled_stamping_keeps_segments 0 100 (fun _ => (none, some "refused"))
    (fun _ => (some (), none)) { Connection := some fixture.twoHopConn }
    [Invocation.request 100, Invocation.close 200, Invocation.request 300] (Or.inl rfl)
  exact ⟨Or.inl rfl, h.2.2.1, h.2.2.2.1, h.2.2.2.2.2.2⟩

end ensureexpires

/-! ## The client chain element: position on return and error propagation -/

namespace updatepath

open networkservice

/-- Claim C5. When updatePath succeeds with the recorded position index and the next
element returns, without error, a connection: if the path of that connection is present
and has more than index segments, Request returns that connection, after the fallback
stamp, with its identifier set to the identifier of the segment at index and the index
of its path set to index, whatever segments the next element appended and wherever it
moved the index; if the path is absent or has at most index segments, the indexing is
out of range and the call faults. -/
theorem Request_restores_recorded_position (name : String)
    (updatePath : Option Connection → String → Option Connection × Nat × Option Error)
    (next : NetworkServiceRequest → Option Connection × Option Error)
    (nowBefore nowAfter : Time) (request : NetworkServiceRequest)
    (c2 : Option Connection) (index : Nat) (conn : Connection)
    (hupd : updatePath (some (beforeUpdate nowBefore request.Connection)) name =
      (c2, index, none))
    (hnext : next { Connection := c2 } = (some conn, none)) :
    (∀ path, conn.Path = some path → index < path.PathSegments.length →
      ∃ (stamped : Path) (seg : PathSegment),
        ensurePreviousExpires nowAfter (some path) = some stamped ∧
        stamped.PathSegments[index]? = some seg ∧
        (path.PathSegments[index]?).map PathSegment.Id = some seg.Id ∧
        (Request name updatePath next nowBefore nowAfter request).returned =
          Outcome.ret
            (some { conn with Id := seg.Id, Path := some { stamped with Index := index } })
            none) ∧
    ((conn.Path = none ∨ ∃ path, conn.Path = some path ∧ path.PathSegments.length ≤ index) →
      (Request name updatePath next nowBefore nowAfter request).returned = Outcome.panic) := by
  have hret := (Request_of_next_ok name updatePath next nowBefore nowAfter request c2 index
    conn hupd hnext).2
  constructor
  · intro path hpath hlt
    obtain ⟨segs, hens, hlen, hframe⟩ := ensurePreviousExpires_shape nowAfter path
    obtain ⟨seg', hseg', hid, _⟩ :=
      hframe index (path.PathSegments[index]) (List.getElem?_eq_getElem hlt)
    refine ⟨_, seg', hens, hseg', ?_, ?_⟩
    · rw [List.getElem?_eq_getElem hlt, Option.map_some', hid]
    · rw [hret, hpath, hens]
      simp only [hseg']
  · rintro (hnone | ⟨path, hpath, hle⟩)
    · rw [hret, hnone]
      rfl
    · obtain ⟨segs, hens, hlen, _⟩ := ensurePreviousExpires_shape nowAfter path
      have hout : segs[index]? = none := List.getElem?_eq_none (by omega)
      rw [hret, hpath, hens]
      simp only [hout]

/-- Claim C5 at a concrete input: the handler named A re-enters at position 1, the next
element returns a path with a third segment and the index moved to 2, and the call
returns that connection with the identifier of the segment at position 1 and the index
back at 1. -/
theorem Request_restores_recorded_position_witness :
    ∃ (stamped : Path) (seg : PathSegment),
      ensurePreviousExpires 200 (some fixture.downstreamPath) = some stamped ∧
      stamped.PathSegments[1]? = some seg ∧
      (fixture.downstreamPath.PathSegments[1]?).map PathSegment.Id = some seg.Id ∧
      (Request "A" (updatePath "id-new") (fun _ => (some fixture.downstreamConn, none))
        100 200 { Connection := some fixture.twoHopConn }).returned =
        Outcome.ret
          (some { fixture.downstreamConn with
            Id := seg.Id, Path := some { stamped with Index := 1 } })
          none :=
  (Request_restores_recorded_position "A" (updatePath "id-new")
    (fun _ => (some fixture.downstreamConn, none)) 100 200
    { Connection := some fixture.twoHopConn } (some fixture.twoHopConn) 1
    fixture.downstreamConn rfl rfl).1 fixture.downstreamPath rfl (by decide)

/-- Claim C7. Request returns an error exactly when updatePath returns one or, updatePath
having succeeded, the next element returns one; the error returned is that error and
the connection returned with it is absent; when updatePath fails the next element is not
invoked and the call does not depend on it; when the next element fails the request is
left as it was handed on, without fallback stamp and without reset of identifier or
index. Close returns the error of updatePath without delegating, and otherwise hands the
updated connection on and returns what the next element returns. -/
theorem Request_propagates_errors (name : String)
    (updatePath : Option Connection → String → Option Connection × Nat × Option Error)
    (next : NetworkServiceRequest → Option Connection × Option Error)
    (nextClose : Connection → Option Unit × Option Error)
    (nowBefore nowAfter : Time) (request : NetworkServiceRequest) (conn : Connection) :
    (∀ e : Error,
      (∃ v, (Request name updatePath next nowBefore nowAfter request).returned =
          Outcome.ret v (some e)) ↔
        ((updatePath (some (beforeUpdate nowBefore request.Connection)) name).2.2 = some e ∨
          ((updatePath (some (beforeUpdate nowBefore request.Connection)) name).2.2 = none ∧
            (next { Connection :=
              (updatePath (some (beforeUpdate nowBefore request.Connection)) name).1 }).2 =
                some e))) ∧
    (∀ (v : Option Connection) (e : Error),
      (Request name updatePath next nowBefore nowAfter request).returned =
          Outcome.ret v (some e) → v = none) ∧
    (∀ e : Error,
      (updatePath (some (beforeUpdate nowBefore request.Connection)) name).2.2 = some e →
        (Request name updatePath next nowBefore nowAfter request).delegated = none ∧
        (Request name updatePath next nowBefore nowAfter request).returned =
          Outcome.ret none (some e) ∧
        ∀ next' : NetworkServiceRequest → Option Connection × Option Error,
          Request name updatePath next' nowBefore nowAfter request =
            Request name updatePath next nowBefore nowAfter request) ∧
    (∀ e : Error,
      (updatePath (some (beforeUpdate nowBefore request.Connection)) name).2.2 = none →
      (next { Connection :=
        (updatePath (some (beforeUpdate nowBefore request.Connection)) name).1 }).2 = some e →
        Request name updatePath next nowBefore nowAfter request =
          { request :=
              { Connection :=
                (updatePath (some (beforeUpdate nowBefore request.Connection)) name).1 },
            delegated := some
              { Connection :=
                (updatePath (some (beforeUpdate nowBefore request.Connection)) name).1 },
            returned := Outcome.ret none (some e) }) ∧
    (∀ e : Error,
      (updatePath (some (beforeUpdate nowBefore (some conn))) name).2.2 = some e →
        Close name updatePath nextClose nowBefore nowAfter (some conn) =
          { delegated := none, returned := Outcome.ret none (some e) }) ∧
    (∀ c2 : Connection,
      (updatePath (some (beforeUpdate nowBefore (some conn))) name).1 = some c2 →
      (updatePath (some (beforeUpdate nowBefore (some conn))) name).2.2 = none →
        Close name updatePath nextClose nowBefore nowAfter (some conn) =
          { delegated := some { c2 with Path := ensurePreviousExpires nowAfter c2.Path },
            returned :=
              Outcome.ret
                (nextClose { c2 with Path := ensurePreviousExpires nowAfter c2.Path }).1
                (nextClose { c2 with Path := ensurePreviousExpires nowAfter c2.Path }).2 }) := by
  refine ⟨?_, ?_, ?_, ?_, ?_, ?_⟩
  · intro e
    rcases hupd : updatePath (some (beforeUpdate nowBefore request.Connection)) name with
      ⟨c2, index, _ | err⟩
    · rcases hnext : next { Connection := c2 } with ⟨_ | rc, _ | err'⟩
      · rw [Request_of_next_nil name updatePath next nowBefore nowAfter request c2 index
          hupd hnext]
        simp [hnext]
      · rw [Request_of_next_error name updatePath next nowBefore nowAfter request c2 index
          _ err' hupd hnext]
        simp [hnext]
      · rw [(Request_of_next_ok name updatePath next nowBefore nowAfter request c2 index rc
          hupd hnext).2]
        simp only [hnext]
        cases ensurePreviousExpires nowAfter rc.Path with
        | none => simp
        | some path =>
          cases h2 : path.PathSegments[index]? with
          | none => simp [h2]
          | some seg => simp [h2]
      · rw [Request_of_next_error name updatePath next nowBefore nowAfter request c2 index
          _ err' hupd hnext]
        simp [hnext]
    · rw [Request_of_updatePath_error name updatePath next nowBefore nowAfter request c2
        index err hupd]
      simp
  · intro v e
    rcases hupd : updatePath (some (beforeUpdate nowBefore request.Connection)) name with
      ⟨c2, index, _ | err⟩
    · rcases hnext : next { Connection := c2 } with ⟨_ | rc, _ | err'⟩
      · rw [Request_of_next_nil name updatePath next nowBefore nowAfter request c2 index
          hupd hnext]
        simp
      · rw [Request_of_next_error name updatePath next nowBefore nowAfter request c2 index
          _ err' hupd hnext]
        simp only [Outcome.ret.injEq]
        intro h
        exact h.1.symm
      · rw [(Request_of_next_ok name updatePath next nowBefore nowAfter request c2 index rc
          hupd hnext).2]
        cases ensurePreviousExpires nowAfter rc.Path with
        | none => simp
        | some path =>
          cases h2 : path.PathSegments[index]? with
          | none => simp [h2]
          | some seg => simp [h2]
      · rw [Request_of_next_error name updatePath next nowBefore nowAfter request c2 index
          _ err' hupd hnext]
        simp only [Outcome.ret.injEq]
        intro h
        exact h.1.symm
    · rw [Request_of_updatePath_error name updatePath next nowBefore nowAfter request c2
        index err hupd]
      simp only [Outcome.ret.injEq]
      intro h
      exact h.1.symm
  · intro e
    rcases hupd : updatePath (some (beforeUpdate nowBefore request.Connection)) name with
      ⟨c2, index, err⟩
    intro he
    have he' : err = some e := he
    subst he'
    refine ⟨?_, ?_, ?_⟩
    · rw [Request_of_updatePath_error name updatePath next nowBefore nowAfter request c2
        index e hupd]
    · rw [Request_of_updatePath_error name updatePath next nowBefore nowAfter request c2
        index e hupd]
    · intro next'
      rw [Request_of_updatePath_error name updatePath next nowBefore nowAfter request c2
        index e hupd,
        Request_of_updatePath_error name updatePath next' nowBefore nowAfter request c2
        index e hupd]
  · intro e
    rcases hupd : updatePath (some (beforeUpdate nowBefore request.Connection)) name with
      ⟨c2, index, err⟩
    intro hnone hnext
    have hnone' : err = none := hnone
    subst hnone'
    rcases hn : next { Connection := c2 } with ⟨v, err'⟩
    have hnext' : (next { Connection := c2 }).2 = some e := hnext
    rw [hn] at hnext'
    have herr : err' = some e := hnext'
    subst herr
    exact Request_of_next_error name updatePath next nowBefore nowAfter request c2 index v e
      hupd hn
  · intro e
    rcases hupd : updatePath (some (beforeUpdate nowBefore (some conn))) name with
      ⟨c2, index, err⟩
    intro he
    have he' : err = some e := he
    subst he'
    exact Close_of_updatePath_error name updatePath nextClose nowBefore nowAfter conn c2
      index e hupd
  · intro c2
    rcases hupd : updatePath (some (beforeUpdate nowBefore (some conn))) name with
      ⟨c2', index, err⟩
    intro hc he
    have hc' : c2' = some c2 := hc
    have he' : err = none := he
    subst hc' he'
    exact Close_of_updatePath_ok name updatePath nextClose nowBefore nowAfter conn c2 index
      hupd

end updatepath

/-! ## The client chain element on an empty connection and on re-entry -/

namespace updatepath

open networkservice

/-- Claim C9, as stated, fails at the request without a connection: the next element
receives the single segment named A without a lease, returns the connection unchanged,
and the connection that Request returns carries the lease 200 + 1 minute on that
segment, so the fallback did set an expiration on return. -/
theorem Request_empty_connection_stamps_on_return :
    (Request "A" (updatePath "id-new") (fun r => (r.Connection, none)) 100 200
      { Connection := none }).delegated =
      some { Connection := some (Connection.mk "" (some
        { Index := 0, PathSegments := [{ Id := "id-new", Name := "A", Expires := none }] })) } ∧
    (Request "A" (updatePath "id-new") (fun r => (r.Connection, none)) 100 200
      { Connection := none }).returned =
      Outcome.ret (some
        { Id := "id-new",
          Path := some
            { Index := 0,
              PathSegments :=
                [{ Id := "id-new", Name := "A", Expires := some 60000000200 }] } }) none ∧
    ¬ (∀ conn : Connection,
        (Request "A" (updatePath "id-new") (fun r => (r.Connection, none)) 100 200
          { Connection := none }).returned = Outcome.ret (some conn) none →
        ∀ seg ∈ segmentsOf (some conn), seg.Expires = none) := by
  refine ⟨by decide, by decide, ?_⟩
  intro h
  have h1 := h
    { Id := "id-new",
      Path := some
        { Index := 0,
          PathSegments := [{ Id := "id-new", Name := "A", Expires := some 60000000200 }] } }
    (by decide)
    { Id := "id-new", Name := "A", Expires := some 60000000200 } (by decide)
  exact absurd h1 (by decide)

/-- Claim C9, amended. For every request whose connection has an absent path, Request
through the path updater with a next element that returns the connection unchanged hands
on a path with exactly one segment, carrying the name of the handler and no lease, at
index 0, and returns a path with exactly that one segment at index 0 and the identifier
of the connection equal to the identifier of the segment; no expiration is set before
delegation, and on return the fallback gives that segment the lease now + 1 minute. -/
theorem Request_empty_connection (name freshId : String) (nowBefore nowAfter : Time)
    (request : NetworkServiceRequest)
    (habsent : ∀ c, request.Connection = some c → c.Path = none) :
    (Request name (updatePath freshId) (fun r => (r.Connection, none)) nowBefore nowAfter
      request).delegated =
      some { Connection := some (Connection.mk (request.Connection.getD {}).Id (some
        { Index := 0, PathSegments := [{ Id := freshId, Name := name, Expires := none }] })) } ∧
    (Request name (updatePath freshId) (fun r => (r.Connection, none)) nowBefore nowAfter
      request).returned =
      Outcome.ret (some
        { Id := freshId,
          Path := some
            { Index := 0,
              PathSegments :=
                [{ Id := freshId, Name := name,
                   Expires := some (nowAfter + 60 * 1000000000) }] } }) none := by
  rcases request with ⟨_ | ⟨id, path⟩⟩
  · constructor
    · rfl
    · simp [Request, updatePath, ensurePreviousExpires, Minute]
  · have hp : path = none := habsent ⟨id, path⟩ rfl
    subst hp
    constructor
    · rfl
    · simp [Request, updatePath, ensurePreviousExpires, Minute]

/-- Claim C9, amended, at concrete inputs: the request without a connection. -/
theorem Request_empty_connection_witness :
    (∀ c, (NetworkServiceRequest.mk none).Connection = some c → c.Path = none) ∧
    (Request "A" (updatePath "id-new") (fun r => (r.Connection, none)) 100 200
      { Connection := none }).returned =
      Outcome.ret (some
        { Id := "id-new",
          Path := some
            { Index := 0,
              PathSegments :=
                [{ Id := "id-new", Name := "A",
                   Expires := some (200 + 60 * 1000000000) }] } }) none :=
  ⟨(by intro c h; cases h),
    (Request_empty_connection "A" "id-new" 100 200 { Connection := none }
      (by intro c h; cases h)).2⟩

/-- Claim C4 at the failing input. The handler named A re-enters on the two hop path:
the segment at the index carries its name and a lease, the segment before it arrived
without a lease. The fallback looks at the last segment only, so Request and Close both
hand the connection on unchanged, with a previous segment that has no expiration. -/
theorem Request_reentry_previous_without_lease :
    (Request "A" (updatePath "id-new") (fun r => (r.Connection, none)) 100 200
      { Connection := some fixture.twoHopConn }).delegated =
      some { Connection := some fixture.twoHopConn } ∧
    (Close "A" (updatePath "id-new") (fun _ => (some (), none)) 100 200
      (some fixture.twoHopConn)).delegated = some fixture.twoHopConn ∧
    previousSegment (some fixture.twoHopConn) = some fixture.caller ∧
    fixture.caller.Expires = none := by
  refine ⟨by decide, by decide, by decide, rfl⟩

end updatepath

/-! ## The values of the stamps -/

namespace ensureexpires

open networkservice

/-- An expiration that setExpires changed is the clock reading plus the ttl, and the
ttl is then not zero. -/
theorem setExpires_written (ttl : Duration) (now : Time) (conn : Connection) (i : Nat)
    (seg seg' : PathSegment)
    (hbefore : (segmentsOf (some conn))[i]? = some seg)
    (hafter : (segmentsOf (setExpires ttl now (some conn)))[i]? = some seg')
    (hne : seg'.Expires ≠ seg.Expires) :
    seg'.Expires = some (now + ttl) ∧ ttl ≠ 0 := by
  have hsame : setExpires ttl now (some conn) = some conn → False := by
    intro h
    rw [h, hbefore] at hafter
    exact hne (by rw [Option.some.inj hafter])
  rcases conn with ⟨id, _ | p⟩
  · exact absurd (setExpires_eq_self ttl now _ (by simp [Connection.GetPrevPathSegment])) hsame
  · by_cases httl : ttl = 0
    · subst httl
      exact absurd (setExpires_zero now _) hsame
    · by_cases hprev : 1 ≤ p.Index ∧ p.Index - 1 < p.PathSegments.length
      · have hk : p.PathSegments[p.Index - 1]? = some (p.PathSegments[p.Index - 1]) :=
          List.getElem?_eq_getElem hprev.2
        rw [setExpires_eq_set ttl now ⟨id, some p⟩ p _ httl rfl hprev.1 hk] at hafter
        have hb : p.PathSegments[i]? = some seg := hbefore
        obtain ⟨seg'', h1, _, _, h4, h5⟩ :=
          set_expires_frame _ _ _ (some (now + ttl)) hk i seg hb
        have ha : (p.PathSegments.set (p.Index - 1)
            { p.PathSegments[p.Index - 1] with Expires := some (now + ttl) })[i]? =
              some seg' := hafter
        rw [h1] at ha
        have heq : seg'' = seg' := Option.some.inj ha
        subst heq
        by_cases hik : i = p.Index - 1
        · exact ⟨h4 hik, httl⟩
        · exact absurd (h5 hik) hne
      · refine absurd (setExpires_eq_self ttl now _ ?_) hsame
        simp only [Connection.GetPrevPathSegment]
        rw [if_neg hprev]

/-- When the path is present, Request hands on the connection after setExpires. -/
theorem Request_delegated_of_path (ttl : Duration) (now : Time)
    (next : NetworkServiceRequest → Option Connection × Option Error)
    (request : NetworkServiceRequest) (conn : Connection) (p : Path)
    (hconn : request.Connection = some conn) (hpath : conn.Path = some p) :
    (Request ttl now next request).delegated =
      { Connection := setExpires ttl now (some conn) } := by
  rcases request with ⟨c⟩
  rcases conn with ⟨id, path⟩
  have hc : c = some ⟨id, path⟩ := hconn
  have hp : path = some p := hpath
  subst hc hp
  rfl

/-- After setExpires with a ttl other than zero, the previous segment carries the
stamp. -/
theorem previousSegment_setExpires (ttl : Duration) (now : Time) (conn : Connection)
    (p : Path) (prev : PathSegment) (httl : ttl ≠ 0) (hpath : conn.Path = some p)
    (hidx : 1 ≤ p.Index) (hprev : p.PathSegments[p.Index - 1]? = some prev) :
    previousSegment (setExpires ttl now (some conn)) =
      some { prev with Expires := some (now + ttl) } := by
  rw [setExpires_eq_set ttl now conn p prev httl hpath hidx hprev]
  simp only [previousSegment, hidx, if_true]
  exact set_expires_at _ _ _ _ hprev

end ensureexpires

namespace updatepath

open networkservice

/-- An expiration that ensurePreviousExpires changed is the clock reading plus one
minute. -/
theorem ensurePreviousExpires_written (now : Time) (p p' : Path) (i : Nat)
    (seg seg' : PathSegment)
    (hbefore : p.PathSegments[i]? = some seg)
    (hens : ensurePreviousExpires now (some p) = some p')
    (hafter : p'.PathSegments[i]? = some seg')
    (hne : seg'.Expires ≠ seg.Expires) :
    seg'.Expires = some (now + Minute) := by
  have hsame : ensurePreviousExpires now (some p) = some p → False := by
    intro h
    rw [h] at hens
    have hp : p = p' := Option.some.inj hens
    subst hp
    rw [hbefore] at hafter
    exact hne (by rw [Option.some.inj hafter])
  by_cases hnil : p.PathSegments = []
  · exact absurd (ensurePreviousExpires_nil now p hnil) hsame
  · have hpos : 0 < p.PathSegments.length := List.length_pos.mpr hnil
    have hlt : p.PathSegments.length - 1 < p.PathSegments.length := by omega
    have hlast : p.PathSegments[p.PathSegments.length - 1]? =
        some (p.PathSegments[p.PathSegments.length - 1]) := List.getElem?_eq_getElem hlt
    by_cases habs : (p.PathSegments[p.PathSegments.length - 1]).Expires = none
    · rw [ensurePreviousExpires_eq_set now p _ hlast habs] at hens
      have hp : _ = p' := Option.some.inj hens
      subst hp
      obtain ⟨seg'', h1, _, _, h4, h5⟩ :=
        set_expires_frame _ _ _ (some (now + Minute)) hlast i seg hbefore
      have ha : (p.PathSegments.set (p.PathSegments.length - 1)
          { p.PathSegments[p.PathSegments.length - 1] with
            Expires := some (now + Minute) })[i]? = some seg' := hafter
      rw [h1] at ha
      have heq : seg'' = seg' := Option.some.inj ha
      subst heq
      by_cases hik : i = p.PathSegments.length - 1
      · exact h4 hik
      · exact absurd (h5 hik) hne
    · exact absurd (ensurePreviousExpires_eq_self now p _ hlast habs) hsame

end updatepath

namespace ensureexpires

open networkservice

/-- Claim C8, as stated, fails for a negative ttl, which NewServer accepts: with the
ttl of minus one nanosecond and the clock reading 100, setExpires writes the
expiration 99 on the previous segment, which is earlier than the clock reading. -/
theorem setExpires_negative_ttl_backdates :
    (-1 : Duration) ≠ 0 ∧
    setExpires (-1) 100 (some fixture.twoHopConn) =
      some { Id := "conn",
             Path := some
               { Index := 1,
                 PathSegments :=
                   [{ Id := "id-caller", Name := "caller", Expires := some 99 },
                    fixture.hopA] } } ∧
    ¬ ((100 : Time) ≤ 99) := by
  refine ⟨by decide, by decide, by decide⟩

/-- Claim C8, amended. Every expiration that the server side setExpires writes equals
now + ttl, with a ttl other than zero, and it is not earlier than now exactly when the
ttl is positive; every expiration that the client side fallback writes equals
now + 1 minute and is not earlier than now. -/
theorem stamps_are_now_plus_ttl (ttl : Duration) (now : Time) (conn : Connection)
    (path path' : Path) (i : Nat) (seg seg' : PathSegment) :
    ((segmentsOf (some conn))[i]? = some seg →
      (segmentsOf (setExpires ttl now (some conn)))[i]? = some seg' →
      seg'.Expires ≠ seg.Expires →
        seg'.Expires = some (now + ttl) ∧ ttl ≠ 0 ∧ (now ≤ now + ttl ↔ 0 < ttl)) ∧
    (path.PathSegments[i]? = some seg →
      updatepath.ensurePreviousExpires now (some path) = some path' →
      path'.PathSegments[i]? = some seg' →
      seg'.Expires ≠ seg.Expires →
        seg'.Expires = some (now + 60 * 1000000000) ∧ now ≤ now + 60 * 1000000000) := by
  constructor
  · intro hb ha hne
    obtain ⟨h1, h2⟩ := setExpires_written ttl now conn i seg seg' hb ha hne
    refine ⟨h1, h2, ?_⟩
    constructor
    · intro h
      exact lt_of_le_of_ne ((le_add_iff_nonneg_right now).mp h) (Ne.symm h2)
    · intro h
      exact (le_add_iff_nonneg_right now).mpr (le_of_lt h)
  · intro hb hens ha hne
    have h1 := updatepath.ensurePreviousExpires_written now path path' i seg seg' hb hens ha hne
    exact ⟨h1, (le_add_iff_nonneg_right now).mpr (by decide)⟩

/-- Claim C8, amended, at concrete inputs: the ttl of 30 at the reading 100 changes
the expiration of the first segment of the two hop connection, to 100 + 30, and the
fallback at the reading 100 changes the expiration of the segment of the one hop path,
to 100 + 1 minute. -/
theorem stamps_are_now_plus_ttl_witness :
    ((segmentsOf (some fixture.twoHopConn))[0]? = some fixture.caller ∧
      (segmentsOf (setExpires 30 100 (some fixture.twoHopConn)))[0]? =
        some fixture.callerRenewed ∧
      fixture.callerRenewed.Expires ≠ fixture.caller.Expires ∧
      fixture.callerRenewed.Expires = some (100 + 30) ∧ (30 : Duration) ≠ 0 ∧
      ((100 : Time) ≤ 100 + 30 ↔ (0 : Duration) < 30)) ∧
    (fixture.callerPath.PathSegments[0]? = some fixture.caller ∧
      updatepath.ensurePreviousExpires 100 (some fixture.callerPath) =
        some fixture.callerFallbackPath ∧
      fixture.callerFallbackPath.PathSegments[0]? = some fixture.callerFallback ∧
      fixture.callerFallback.Expires ≠ fixture.caller.Expires ∧
      fixture.callerFallback.Expires = some (100 + 60 * 1000000000) ∧
      (100 : Time) ≤ 100 + 60 * 1000000000) :=
  ⟨⟨by decide, by decide, by decide,
      (stamps_are_now_plus_ttl 30 100 fixture.twoHopConn fixture.callerPath
        fixture.callerFallbackPath 0 fixture.caller fixture.callerRenewed).1
        (by decide) (by decide) (by decide)⟩,
    ⟨by decide, by decide, by decide, by decide,
      (stamps_are_now_plus_ttl 30 100 fixture.twoHopConn fixture.callerPath
        fixture.callerFallbackPath 0 fixture.caller fixture.callerFallback).2
        (by decide) (by decide) (by decide) (by decide)⟩⟩

/-- Claim C10, as stated, fails when the two clock readings are equal, which the
premise now1 <= now2 allows: two consecutive Request calls at the reading 100 with the
ttl 30 both leave the expiration 130 on the previous segment, and the second is not
greater than the first. -/
theorem Request_renewal_not_strict :
    (30 : Duration) ≠ 0 ∧ (100 : Time) ≤ 100 ∧
    ∃ e1 e2 : Time,
      (previousSegment (Request 30 100 (fun r => (r.Connection, none))
        { Connection := some fixture.twoHopConn }).delegated.Connection).bind
          PathSegment.Expires = some e1 ∧
      (previousSegment (Request 30 100 (fun r => (r.Connection, none))
        (Request 30 100 (fun r => (r.Connection, none))
          { Connection := some fixture.twoHopConn }).delegated).delegated.Connection).bind
          PathSegment.Expires = some e2 ∧
      ¬ (e1 < e2) :=
  ⟨by decide, by decide, 130, 130, by decide, by decide, by decide⟩

/-- Claim C10, amended. For a ttl other than zero and a connection that has a previous
segment, two consecutive Request calls through the same server chain element on the
same connection, at the clock readings now1 and now2, leave now1 + ttl and then
now2 + ttl on the previous segment: the second stamp replaces the first, is not smaller
than it when now1 <= now2, and is greater than it exactly when now1 < now2. -/
theorem Request_renewal_ordering (ttl : Duration) (now1 now2 : Time)
    (next : NetworkServiceRequest → Option Connection × Option Error)
    (request : NetworkServiceRequest) (conn : Connection) (p : Path) (prev : PathSegment)
    (httl : ttl ≠ 0) (hconn : request.Connection = some conn) (hpath : conn.Path = some p)
    (hidx : 1 ≤ p.Index) (hprev : p.PathSegments[p.Index - 1]? = some prev) :
    previousSegment (Request ttl now1 next request).delegated.Connection =
      some { prev with Expires := some (now1 + ttl) } ∧
    previousSegment
      (Request ttl now2 next (Request ttl now1 next request).delegated).delegated.Connection =
      some { prev with Expires := some (now2 + ttl) } ∧
    (now1 ≤ now2 → now1 + ttl ≤ now2 + ttl) ∧
    (now1 + ttl < now2 + ttl ↔ now1 < now2) := by
  have h1 := Request_delegated_of_path ttl now1 next request conn p hconn hpath
  have hset := setExpires_eq_set ttl now1 conn p prev httl hpath hidx hprev
  have h2 := Request_delegated_of_path ttl now2 next (Request ttl now1 next request).delegated
    { conn with
      Path := some { p with
        PathSegments := p.PathSegments.set (p.Index - 1)
          { prev with Expires := some (now1 + ttl) } } }
    { p with
      PathSegments := p.PathSegments.set (p.Index - 1)
        { prev with Expires := some (now1 + ttl) } }
    (by rw [h1, hset]) rfl
  refine ⟨?_, ?_, ?_, ?_⟩
  · rw [h1]
    exact previousSegment_setExpires ttl now1 conn p prev httl hpath hidx hprev
  · rw [h2]
    exact previousSegment_setExpires ttl now2
      { conn with
        Path := some { p with
          PathSegments := p.PathSegments.set (p.Index - 1)
            { prev with Expires := some (now1 + ttl) } } }
      { p with
        PathSegments := p.PathSegments.set (p.Index - 1)
          { prev with Expires := some (now1 + ttl) } }
      { prev with Expires := some (now1 + ttl) }
      httl rfl hidx (set_expires_at _ _ _ _ hprev)
  · intro h
    exact add_le_add_right h ttl
  · exact add_lt_add_iff_right ttl

/-- Claim C10, amended, at concrete inputs: the readings 100 and 250 with the ttl 30 on
the two hop connection. -/
theorem Request_renewal_ordering_witness :
    previousSegment (Request 30 100 (fun r => (r.Connection, none))
      { Connection := some fixture.twoHopConn }).delegated.Connection =
      some { fixture.caller with Expires := some (100 + 30) } ∧
    previousSegment (Request 30 250 (fun r => (r.Connection, none))
      (Request 30 100 (fun r => (r.Connection, none))
        { Connection := some fixture.twoHopConn }).delegated).delegated.Connection =
      some { fixture.caller with Expires := some (250 + 30) } ∧
    ((100 : Time) ≤ 250 → (100 : Time) + 30 ≤ 250 + 30) ∧
    ((100 : Time) + 30 < 250 + 30 ↔ (100 : Time) < 250) :=
  Request_renewal_ordering 30 100 250 (fun r => (r.Connection, none))
    { Connection := some fixture.twoHopConn } fixture.twoHopConn fixture.twoHopPath
    fixture.caller (by decide) rfl rfl (by decide) rfl

end ensureexpires

/-! ## The previous segment at the moment of delegation -/

namespace updatepath

open networkservice

/-- After ensurePreviousExpires on a path with segments, the last segment has an
expiration, and the index, the number of segments and every name are as before. -/
theorem ensurePreviousExpires_last_leased (now : Time) (p : Path)
    (hne : p.PathSegments ≠ []) :
    ∃ (segs : List PathSegment) (last : PathSegment) (e : Time),
      ensurePreviousExpires now (some p) = some { p with PathSegments := segs } ∧
      segs.length = p.PathSegments.length ∧
      segs[p.PathSegments.length - 1]? = some last ∧ last.Expires = some e ∧
      ∀ (i : Nat) (seg : PathSegment), p.PathSegments[i]? = some seg →
        ∃ seg', segs[i]? = some seg' ∧ seg'.Name = seg.Name := by
  have hpos : 0 < p.PathSegments.length := List.length_pos.mpr hne
  have hlt : p.PathSegments.length - 1 < p.PathSegments.length := by omega
  have hlast : p.PathSegments[p.PathSegments.length - 1]? =
      some (p.PathSegments[p.PathSegments.length - 1]) := List.getElem?_eq_getElem hlt
  by_cases habs : (p.PathSegments[p.PathSegments.length - 1]).Expires = none
  · refine ⟨_, _, now + Minute, ensurePreviousExpires_eq_set now p _ hlast habs, by simp,
      set_expires_at _ _ _ _ hlast, rfl, ?_⟩
    intro i seg hi
    obtain ⟨seg', h1, _, h3, _, _⟩ :=
      set_expires_frame _ _ _ (some (now + Minute)) hlast i seg hi
    exact ⟨seg', h1, h3⟩
  · obtain ⟨e, he⟩ := Option.ne_none_iff_exists'.mp habs
    exact ⟨p.PathSegments, _, e, ensurePreviousExpires_eq_self now p _ hlast habs, rfl,
      hlast, he, fun i seg hi => ⟨seg, hi, rfl⟩⟩

/-- When updatePath succeeds, Request hands the updated request to the next element,
whatever the next element then returns. -/
theorem Request_delegated_of_updatePath_ok (name : String)
    (updatePath : Option Connection → String → Option Connection × Nat × Option Error)
    (next : NetworkServiceRequest → Option Connection × Option Error)
    (nowBefore nowAfter : Time) (request : NetworkServiceRequest)
    (c2 : Option Connection) (index : Nat)
    (hupd : updatePath (some (beforeUpdate nowBefore request.Connection)) name =
      (c2, index, none)) :
    (Request name updatePath next nowBefore nowAfter request).delegated =
      some { Connection := c2 } := by
  rcases hnext : next { Connection := c2 } with ⟨_ | rc, _ | err⟩
  · simp only [beforeUpdate] at hupd
    simp only [Request, hupd, hnext]
  · rw [Request_of_next_error name updatePath next nowBefore nowAfter request c2 index
      _ err hupd hnext]
  · exact (Request_of_next_ok name updatePath next nowBefore nowAfter request c2 index rc
      hupd hnext).1
  · rw [Request_of_next_error name updatePath next nowBefore nowAfter request c2 index
      _ err hupd hnext]

/-- In the append branch of the reuse-or-append rule the invariant of claim C4 holds:
when the segment at the index carries another name, Request hands on a connection whose
previous segment, the last one before the append, has an expiration. -/
theorem Request_append_previous_leased (name freshId : String)
    (next : NetworkServiceRequest → Option Connection × Option Error)
    (nowBefore nowAfter : Time) (request : NetworkServiceRequest) (conn : Connection)
    (p : Path) (curr : PathSegment)
    (hconn : request.Connection = some conn) (hpath : conn.Path = some p)
    (hcurr : p.PathSegments[p.Index]? = some curr) (hname : curr.Name ≠ name) :
    ∃ (req : NetworkServiceRequest) (prev : PathSegment) (e : Time),
      (Request name (updatePath freshId) next nowBefore nowAfter request).delegated =
        some req ∧
      previousSegment req.Connection = some prev ∧ prev.Expires = some e := by
  have hidx : p.Index < p.PathSegments.length := by
    rcases List.getElem?_eq_some.mp hcurr with ⟨h, _⟩
    exact h
  have hne : p.PathSegments ≠ [] := by
    intro h
    rw [h] at hidx
    exact Nat.not_lt_zero _ hidx
  obtain ⟨segs, last, e, hens, hlen, hlast, hexp, hnames⟩ :=
    ensurePreviousExpires_last_leased nowBefore p hne
  obtain ⟨curr', hcurr', hn'⟩ := hnames p.Index curr hcurr
  have hname' : ¬ curr'.Name = name := by
    rw [hn']
    exact hname
  have hpos : 1 ≤ segs.length := by omega
  have hupd : updatePath freshId (some (beforeUpdate nowBefore request.Connection)) name =
      (some { Id := conn.Id,
              Path := some
                { Index := segs.length,
                  PathSegments :=
                    segs ++ [{ Id := freshId, Name := name, Expires := none }] } },
        segs.length, none) := by
    simp [updatePath, beforeUpdate, hconn, hpath, hens, hcurr', hname']
  have hprev : previousSegment (some
      { Id := conn.Id,
        Path := some
          { Index := segs.length,
            PathSegments := segs ++ [{ Id := freshId, Name := name, Expires := none }] } }) =
      some last := by
    simp only [previousSegment, hpos, if_true]
    rw [List.getElem?_append_left (by omega), hlen]
    exact hlast
  exact ⟨_, last, e,
    Request_delegated_of_updatePath_ok name (updatePath freshId) next nowBefore nowAfter
      request _ _ hupd, hprev, hexp⟩

/-- Claim C7 at concrete inputs: on a connection whose index refers to no segment the
rule fails, Request returns that error without a connection and without invoking the
next element, and Close does the same. -/
theorem Request_propagates_errors_witness :
    ((Request "A" (updatePath "id-new") (fun r => (r.Connection, none)) 100 200
        { Connection := some fixture.strayConn }).delegated = none ∧
      (Request "A" (updatePath "id-new") (fun r => (r.Connection, none)) 100 200
        { Connection := some fixture.strayConn }).returned =
        Outcome.ret none (some "path index out of range") ∧
      ∀ next' : NetworkServiceRequest → Option Connection × Option Error,
        Request "A" (updatePath "id-new") next' 100 200
            { Connection := some fixture.strayConn } =
          Request "A" (updatePath "id-new") (fun r => (r.Connection, none)) 100 200
            { Connection := some fixture.strayConn }) ∧
    Close "A" (updatePath "id-new") (fun _ => (some (), none)) 100 200
        (some fixture.strayConn) =
      { delegated := none, returned := Outcome.ret none (some "path index out of range") } :=
  ⟨(Request_propagates_errors "A" (updatePath "id-new") (fun r => (r.Connection, none))
      (fun _ => (some (), none)) 100 200 { Connection := some fixture.strayConn }
      fixture.strayConn).2.2.1 "path index out of range" (by decide),
    (Request_propagates_errors "A" (updatePath "id-new") (fun r => (r.Connection, none))
      (fun _ => (some (), none)) 100 200 { Connection := some fixture.strayConn }
      fixture.strayConn).2.2.2.2.1 "path index out of range" (by decide)⟩

end updatepath
